import Mathlib

/-
Shallow embedding of the OS/161 virtual-memory core:
  src/kern/vm/vm.c         (page table, fault handler)
  src/kern/vm/addrspace.c  (regions, address-space lifecycle)

Machine integers are modelled as Nat with explicit `% 2 ^ 32` where the C
code can wrap.  External collaborators (the kernel page allocator, kmalloc,
the TLB primitives and memory ops) are modelled as operations on an explicit
system state `Sys`; allocation success and failure is driven by oracle lists
so that out-of-memory paths are expressible.
-/

set_option linter.unusedVariables false

/-- Modelled from the spec (section 6): PAGE_SIZE = 4096. -/
def PAGE_SIZE : Nat := 4096

/-- Modelled from the spec (section 6): PAGE_FRAME = 0xFFFFF000, the mask of the page number bits of a 32-bit address. -/
def PAGE_FRAME : Nat := 0xFFFFF000

/-- Modelled from the spec (section 6): L1_PT_SIZE = 2048 first-level slots. -/
def L1_PT_SIZE : Nat := 2048

/-- Modelled from the spec (section 6): L2_PT_SIZE = 512 second-level slots. -/
def L2_PT_SIZE : Nat := 512

/-- Modelled from the spec (section 6): the TLB EntryLo dirty ("writable") bit of the MIPS hardware, bit 10. -/
def TLBLO_DIRTY : Nat := 0x00000400

/-- Modelled from the spec (section 6): the TLB EntryLo valid bit of the MIPS hardware, bit 9. -/
def TLBLO_VALID : Nat := 0x00000200

/-- Modelled from the spec (section 9, note 1): ELF readable permission bit. -/
def PF_R : Nat := 0x4

/-- Modelled from the spec (section 9, note 1): ELF writable permission bit. -/
def PF_W : Nat := 0x2

/-- Modelled from the spec (section 9, note 1): ELF executable permission bit. -/
def PF_X : Nat := 0x1

/-- Modelled from the spec (section 6): number of hardware TLB slots. -/
def NUM_TLB : Nat := 64

/-- Modelled from the spec (section 4.1): base of the kernel direct-mapped window (MIPS kseg0). -/
def MIPS_KSEG0 : Nat := 0x80000000

/-- Modelled from the spec (section 6): top of the user virtual-address space, the initial stack pointer. -/
def USERSTACK : Nat := 0x80000000

/-- Modelled from the spec (section 7): the OutOfMemory error code of kern/errno.h. -/
def ENOMEM : Nat := 3

/-- Modelled from the spec (section 7): the Fault error code of kern/errno.h. -/
def EFAULT : Nat := 6

/-- Modelled from the spec (section 7): the InvalidArgument error code of kern/errno.h. -/
def EINVAL : Nat := 8

/-- Modelled from the spec (section 4.5): fault type for a read miss. -/
def VM_FAULT_READ : Nat := 0

/-- Modelled from the spec (section 4.5): fault type for a write miss. -/
def VM_FAULT_WRITE : Nat := 1

/-- Modelled from the spec (section 4.5): fault type for a write to a read-only TLB entry. -/
def VM_FAULT_READONLY : Nat := 2

/-- Modelled from the spec (section 3): 2^32, the modulus of 32-bit machine arithmetic. -/
def U32 : Nat := 2 ^ 32

/-- Modelled from the spec (section 4.1): physical-to-kernel-virtual translation, a constant offset into kseg0. -/
def PADDR_TO_KVADDR (p : Nat) : Nat := p + MIPS_KSEG0

/-- Modelled from the spec (section 4.1): kernel-virtual-to-physical translation, inverse of `PADDR_TO_KVADDR` on kseg0 addresses. -/
def KVADDR_TO_PADDR (v : Nat) : Nat := v - MIPS_KSEG0

/-- Modelled from the spec (section 6): per-slot invalid EntryHi tag, pairwise distinct virtual tags in the kernel range. -/
def TLBHI_INVALID (i : Nat) : Nat := (0x80000 + i) * PAGE_SIZE

/-- Modelled from the spec (section 6): invalid EntryLo value, VALID bit clear. -/
def TLBLO_INVALID : Nat := 0

/-- A two-level page table: each L1 slot is either empty (a NULL pointer in C)
or an L2 array of 512 hardware EntryLo words, value 0 meaning an empty slot. -/
abbrev PT : Type := Nat → Option (Nat → Nat)

/-- One record of a TLB write: (EntryHi, EntryLo, slot), slot `none` for the
hardware random-replacement write `tlb_random`. -/
abbrev TlbWrite : Type := Nat × Nat × Option Nat

/-- Modelled from the spec (sections 4.1, 6): the observable state of the
machine outside the address-space structures.  `mem` is byte-addressed
physical memory seen through the kseg0 window; `nextPage` is the allocation
watermark of the external page allocator (fresh frames are handed out at
increasing page indices); `allocatedFrames` tracks the kernel virtual
addresses of currently allocated frames; `framePlan` and `kmPlan` are
success/failure oracles for `alloc_kpages` and `kmalloc`; `junk` gives the
uninitialized contents of kmalloc'd L2 arrays (call number, slot); `tlb` is
the log of TLB writes. -/
structure Sys where
  mem : Nat → Nat
  nextPage : Nat
  allocatedFrames : List Nat
  framePlan : List Bool
  kmPlan : List Bool
  junk : Nat → Nat → Nat
  kmCount : Nat
  tlb : List TlbWrite

/-- Modelled from the spec (section 4.1): `alloc_kpages(1)`.  Returns a fresh
page-aligned kernel virtual address in kseg0, or 0 on allocation failure.
The next oracle entry decides success. -/
def alloc_kpages (σ : Sys) : Nat × Sys :=
  match σ.framePlan with
  | [] => (0, σ)
  | ok :: rest =>
    if ok then
      let kv := MIPS_KSEG0 + σ.nextPage * PAGE_SIZE
      (kv, { σ with framePlan := rest, nextPage := σ.nextPage + 1,
                    allocatedFrames := kv :: σ.allocatedFrames })
    else (0, { σ with framePlan := rest })

/-- Modelled from the spec (section 4.1): `free_kpages(kvaddr)` releases a frame. -/
def free_kpages (σ : Sys) (kv : Nat) : Sys :=
  { σ with allocatedFrames := σ.allocatedFrames.filter (fun a => a ≠ kv) }

/-- Modelled from the spec (section 6): `kmalloc`.  Returns the call number of
this allocation on success (used to look up the uninitialized contents
oracle), `none` on failure.  kmalloc'd blocks other than frames are not
tracked individually since no claim concerns their balance. -/
def kmalloc (σ : Sys) : Option Nat × Sys :=
  match σ.kmPlan with
  | [] => (none, σ)
  | ok :: rest =>
    if ok then (some σ.kmCount, { σ with kmPlan := rest, kmCount := σ.kmCount + 1 })
    else (none, { σ with kmPlan := rest })

/-- Modelled from the spec (section 4.1): `bzero(ptr, n)` clears `n` bytes at `ptr`. -/
def bzero (σ : Sys) (base n : Nat) : Sys :=
  { σ with mem := fun a => if base ≤ a ∧ a < base + n then 0 else σ.mem a }

/-- Modelled from the spec (section 4.2): `memmove(dst, src, n)` copies `n`
bytes and returns its destination pointer (C `memmove` never returns NULL). -/
def memmove (σ : Sys) (dst src n : Nat) : Nat × Sys :=
  (dst, { σ with mem := fun a => if dst ≤ a ∧ a < dst + n then σ.mem (src + (a - dst)) else σ.mem a })

/-- Modelled from the spec (section 6): `tlb_random(hi, lo)` writes a TLB
entry into a hardware-chosen slot; recorded in the write log. -/
def tlb_random (σ : Sys) (hi lo : Nat) : Sys :=
  { σ with tlb := σ.tlb ++ [(hi, lo, none)] }

/-- Modelled from the spec (section 6): `tlb_write(hi, lo, i)` writes TLB slot `i`. -/
def tlb_write (σ : Sys) (hi lo i : Nat) : Sys :=
  { σ with tlb := σ.tlb ++ [(hi, lo, some i)] }

/-- A defined virtual-memory region (struct region of the source); the `next`
pointer of the C struct is represented by list structure. -/
structure Region where
  as_vbase : Nat
  size : Nat
  flags : Nat
  og_flags : Nat
deriving DecidableEq

/-- struct addrspace of the source: a region list, an optionally present
(possibly NULL) page table, and the stack base. -/
structure addrspace where
  regions : List Region
  pagetable : Option PT
  stackbase : Nat

/-- Reading `pt[msb][lsb]` in C; reading through an empty L1 slot would be
undefined behaviour in C and yields 0 here (all uses are guarded by
`pte_exists` or by a just-taken create path). -/
def pt_entry (pt : PT) (msb lsb : Nat) : Nat :=
  match pt msb with
  | none => 0
  | some l2 => l2 lsb

/-- Writing `pt[msb][lsb] = v` in C; a write through an empty L1 slot is
dropped (undefined behaviour in C, never exercised). -/
def pt_set (pt : PT) (msb lsb v : Nat) : PT :=
  fun m => if m = msb then (pt msb).map (fun l2 => fun l => if l = lsb then v else l2 l)
           else pt m

/-- Installing a fresh L2 array into slot `msb`. -/
def pt_set_l2 (pt : PT) (msb : Nat) (l2 : Nat → Nat) : PT :=
  fun m => if m = msb then some l2 else pt m

/-- create_pt_l2 (vm.c:24-38): if L1[msb] is already populated return EINVAL,
else kmalloc a 512-entry L2 array and zero every slot. -/
def create_pt_l2 (σ : Sys) (pt : PT) (msb : Nat) : Nat × PT × Sys :=
  match pt msb with
  | some _ => (EINVAL, pt, σ)
  | none =>
    match kmalloc σ with
    | (none, σ1) => (ENOMEM, pt, σ1)
    | (some _, σ1) => (0, pt_set_l2 pt msb (fun _ => 0), σ1)

/-- create_pte (vm.c:40-63): ensure the L2 array exists, require the slot to
be empty, allocate and zero a fresh frame, and store the hardware EntryLo
word `(paddr & PAGE_FRAME) | dirty | TLBLO_VALID`. -/
def create_pte (σ : Sys) (pt : PT) (msb lsb dirty : Nat) : Nat × PT × Sys :=
  match (if (pt msb).isNone then create_pt_l2 σ pt msb else (0, pt, σ)) with
  | (result, pt1, σ1) =>
    if result ≠ 0 then (result, pt1, σ1)
    else if pt_entry pt1 msb lsb ≠ 0 then (EINVAL, pt1, σ1)
    else
      match alloc_kpages σ1 with
      | (virtual_base, σ2) =>
        if virtual_base = 0 then (ENOMEM, pt1, σ2)
        else
          let σ3 := bzero σ2 virtual_base PAGE_SIZE
          let physical_base := KVADDR_TO_PADDR virtual_base
          (0, pt_set pt1 msb lsb ((physical_base &&& PAGE_FRAME) ||| dirty ||| TLBLO_VALID), σ3)

/-- destroy_pt inner loop (vm.c:102-106): free the frame of every non-zero
slot of one L2 array.  The source also zeroes each slot before `kfree`ing the
array; the zeroing is unobservable once the array is freed. -/
def destroy_pt_l2 (σ : Sys) (l2 : Nat → Nat) : List Nat → Sys
  | [] => σ
  | lsb :: rest =>
    let σ1 := if l2 lsb ≠ 0 then free_kpages σ (PADDR_TO_KVADDR (l2 lsb &&& PAGE_FRAME)) else σ
    destroy_pt_l2 σ1 l2 rest

/-- destroy_pt outer loop (vm.c:100-110): walk every L1 slot and destroy the
present L2 arrays (the arrays themselves are kfree'd, which is untracked). -/
def destroy_pt_l1 (σ : Sys) (pt : PT) : List Nat → Sys
  | [] => σ
  | msb :: rest =>
    match pt msb with
    | none => destroy_pt_l1 σ pt rest
    | some l2 => destroy_pt_l1 (destroy_pt_l2 σ l2 (List.range L2_PT_SIZE)) pt rest

/-- destroy_pt (vm.c:97-113): tolerate NULL, free every resident frame and
every L2 array, then the root. -/
def destroy_pt (σ : Sys) (pt? : Option PT) : Sys :=
  match pt? with
  | none => σ
  | some pt => destroy_pt_l1 σ pt (List.range L1_PT_SIZE)

/-- copy_pt inner loop (vm.c:78-91): for each L2 slot, first copy the raw
source entry into the copy's slot; if it is non-zero, allocate a fresh frame,
zero it, memmove the source frame's contents in, and overwrite the slot with
a fresh EntryLo word carrying the source's dirty bit.  `memmove` returns its
destination, which is non-NULL on this path, so the source's memmove-failure
branch (which destroys the partial copy) is unreachable. -/
def copy_pt_inner (σ : Sys) (l2o : Nat → Nat) (ptC : PT) (msb : Nat) : List Nat → Nat × PT × Sys
  | [] => (0, ptC, σ)
  | lsb :: rest =>
    let ptC1 := pt_set ptC msb lsb (l2o lsb)
    if l2o lsb = 0 then copy_pt_inner σ l2o ptC1 msb rest
    else
      match alloc_kpages σ with
      | (newpage, σ1) =>
        if newpage = 0 then (ENOMEM, ptC1, σ1)
        else
          let σ2 := bzero σ1 newpage PAGE_SIZE
          match memmove σ2 newpage (PADDR_TO_KVADDR (l2o lsb &&& PAGE_FRAME)) PAGE_SIZE with
          | (mres, σ3) =>
            if mres = 0 then (ENOMEM, ptC1, destroy_pt σ3 (some ptC1))
            else
              let dirty := l2o lsb &&& TLBLO_DIRTY
              let ptC2 := pt_set ptC1 msb lsb
                ((KVADDR_TO_PADDR newpage &&& PAGE_FRAME) ||| dirty ||| TLBLO_VALID)
              copy_pt_inner σ3 l2o ptC2 msb rest

/-- copy_pt outer loop (vm.c:73-93): for every populated L1 slot of the
source, kmalloc an (uninitialized) L2 array for the copy and run the inner
loop; any failure propagates immediately without unwinding. -/
def copy_pt_outer (σ : Sys) (ptO : PT) (ptC : PT) : List Nat → Nat × PT × Sys
  | [] => (0, ptC, σ)
  | msb :: rest =>
    match ptO msb with
    | none => copy_pt_outer σ ptO ptC rest
    | some l2o =>
      match kmalloc σ with
      | (none, σ1) => (ENOMEM, ptC, σ1)
      | (some kid, σ1) =>
        let ptC1 := pt_set_l2 ptC msb (σ1.junk kid)
        match copy_pt_inner σ1 l2o ptC1 msb (List.range L2_PT_SIZE) with
        | (0, ptC2, σ2) => copy_pt_outer σ2 ptO ptC2 rest
        | (e, ptC2, σ2) => (e, ptC2, σ2)

/-- copy_pt (vm.c:65-95): EINVAL on a NULL source.  The source's
`pt_copy == NULL` branch (vm.c:69-71) assigns to the by-value parameter and
cannot affect the caller; `as_copy`, the only caller, always passes the
non-NULL table installed by `as_create`, so the copy target is taken here as
a table. -/
def copy_pt (σ : Sys) (ptO? : Option PT) (ptC : PT) : Nat × PT × Sys :=
  match ptO? with
  | none => (EINVAL, ptC, σ)
  | some ptO => copy_pt_outer σ ptO ptC (List.range L1_PT_SIZE)

/-- pte_exists (vm.c:121-126): the table, the L2 array and a non-zero entry
must all be present. -/
def pte_exists (pt? : Option PT) (msb lsb : Nat) : Bool :=
  match pt? with
  | none => false
  | some pt =>
    match pt msb with
    | none => false
    | some l2 => decide (l2 lsb ≠ 0)

/-- The L1 index of vm_fault (vm.c:151): `faultaddress >> 21`. -/
def l1_index (addr : Nat) : Nat := addr >>> 21

/-- The L2 index of vm_fault (vm.c:152): `(faultaddress << 11) >> 23` in
32-bit unsigned arithmetic. -/
def l2_index (addr : Nat) : Nat := ((addr <<< 11) % U32) >>> 23

/-- The region-scan predicate of vm_fault (vm.c:164): the first region with
`vbase <= addr < vbase + size` (the sum taken in wrapping 32-bit arithmetic)
matches. -/
def region_contains (faultaddress : Nat) (r : Region) : Bool :=
  decide (faultaddress < (r.as_vbase + r.size) % U32) && decide (r.as_vbase ≤ faultaddress)

/-- The tail of vm_fault (vm.c:176-183): read the (now present) entry, and
with interrupts disabled write (entry_hi, entry_lo) into a random TLB slot.
The splhigh/splx bracket has no further observable effect in this model. -/
def vm_fault_finish (as : addrspace) (σ : Sys) (pt : PT) (faultaddress msb lsb : Nat) :
    Nat × Option addrspace × Sys :=
  let entry_hi := faultaddress &&& PAGE_FRAME
  let entry_lo := pt_entry pt msb lsb
  (0, some { as with pagetable := some pt }, tlb_random σ entry_hi entry_lo)

/-- vm_fault (vm.c:128-184).  `hasProc` models `curproc != NULL`, `as?`
models `proc_getas()`. -/
def vm_fault (hasProc : Bool) (as? : Option addrspace) (σ : Sys)
    (faulttype faultaddress : Nat) : Nat × Option addrspace × Sys :=
  if faulttype = VM_FAULT_READONLY then (EFAULT, as?, σ)
  else if faulttype ≠ VM_FAULT_READ ∧ faulttype ≠ VM_FAULT_WRITE then (EINVAL, as?, σ)
  else if faultaddress = 0 then (EFAULT, as?, σ)
  else if hasProc = false then (EFAULT, as?, σ)
  else
    match as? with
    | none => (EFAULT, as?, σ)
    | some as =>
      let faultaddress := faultaddress &&& PAGE_FRAME
      let msb := l1_index faultaddress
      let lsb := l2_index faultaddress
      match as.pagetable with
      | none => (EFAULT, as?, σ)
      | some pt =>
        if as.regions.isEmpty then (EFAULT, as?, σ)
        else if pte_exists (some pt) msb lsb = false then
          match as.regions.find? (region_contains faultaddress) with
          | none => (EFAULT, as?, σ)
          | some curr =>
            let dirty := if curr.flags &&& PF_W = PF_W then TLBLO_DIRTY else 0
            if curr.flags &&& PF_W ≠ PF_W ∧ faulttype = VM_FAULT_WRITE then (EFAULT, as?, σ)
            else
              match create_pte σ pt msb lsb dirty with
              | (0, pt2, σ2) => vm_fault_finish as σ2 pt2 faultaddress msb lsb
              | (result, pt2, σ2) => (result, some { as with pagetable := some pt2 }, σ2)
        else vm_fault_finish as σ pt faultaddress msb lsb

/-- as_create (addrspace.c:52-77): kmalloc the struct, then kmalloc the L1
root and set every slot to NULL; either allocation failure yields NULL
(the struct being kfree'd again on the second failure). -/
def as_create (σ : Sys) : Option addrspace × Sys :=
  match kmalloc σ with
  | (none, σ1) => (none, σ1)
  | (some _, σ1) =>
    match kmalloc σ1 with
    | (none, σ2) => (none, σ2)
    | (some _, σ2) =>
      (some { regions := [], pagetable := some (fun _ => none), stackbase := USERSTACK }, σ2)

/-- as_destroy region loop (addrspace.c:144-151): the region nodes are
kfree'd, which leaves no tracked trace in this model. -/
def as_destroy_regions (rs : List Region) : Unit := ()

/-- as_destroy (addrspace.c:138-156): tolerate NULL, free the regions,
destroy the page table, free the struct. -/
def as_destroy (σ : Sys) (as? : Option addrspace) : Sys :=
  match as? with
  | none => σ
  | some as => destroy_pt σ as.pagetable

/-- as_activate (addrspace.c:158-184): with no current address space leave
the TLB alone; otherwise, interrupts disabled, write an invalid entry into
every TLB slot. -/
def as_activate (cur : Option addrspace) (σ : Sys) : Sys :=
  match cur with
  | none => σ
  | some _ =>
    (List.range NUM_TLB).foldl (fun σ1 i => tlb_write σ1 (TLBHI_INVALID i) TLBLO_INVALID i) σ

/-- as_deactivate (addrspace.c:186-195): identical to as_activate. -/
def as_deactivate (cur : Option addrspace) (σ : Sys) : Sys :=
  as_activate cur σ

/-- The region-copy loop of as_copy (addrspace.c:92-125): clone each node in
order; on a kmalloc failure return the regions built so far and a failure
flag (the caller destroys the partial address space). -/
def as_copy_regions (σ : Sys) : List Region → List Region × Bool × Sys
  | [] => ([], true, σ)
  | oldr :: rest =>
    match kmalloc σ with
    | (none, σ1) => ([], false, σ1)
    | (some _, σ1) =>
      let newr : Region :=
        { as_vbase := oldr.as_vbase, size := oldr.size,
          flags := oldr.flags, og_flags := oldr.og_flags }
      match as_copy_regions σ1 rest with
      | (others, ok, σ2) => (newr :: others, ok, σ2)

/-- as_copy (addrspace.c:79-136): create an empty space, copy the stack base,
clone the region list, deep-copy the page table; on any failure destroy the
partial new address space and return ENOMEM (or copy_pt's error). -/
def as_copy (σ : Sys) (old : addrspace) : Nat × Option addrspace × Sys :=
  match as_create σ with
  | (none, σ1) => (ENOMEM, none, σ1)
  | (some newas0, σ1) =>
    let newas1 := { newas0 with stackbase := old.stackbase }
    match as_copy_regions σ1 old.regions with
    | (rs, false, σ2) => (ENOMEM, none, as_destroy σ2 (some { newas1 with regions := rs }))
    | (rs, true, σ2) =>
      let newas2 := { newas1 with regions := rs }
      match newas2.pagetable with
      | none => (EINVAL, none, σ2)
      | some ptC =>
        match copy_pt σ2 old.pagetable ptC with
        | (0, ptC2, σ3) => (0, some { newas2 with pagetable := some ptC2 }, σ3)
        | (res, ptC2, σ3) =>
          (res, none, as_destroy σ3 (some { newas2 with pagetable := some ptC2 }))

/-- as_define_region (addrspace.c:207-234): extend `memsize` by the page
offset of `vaddr`, round `vaddr` down and `memsize` up to page multiples
(all in wrapping 32-bit arithmetic; `~(vaddr_t)PAGE_FRAME` is 0xFFF),
kmalloc a region node carrying `readable | writeable | executable` in both
`flags` and `og_flags`, and prepend it to the list.  No overlap, size or
range check is performed. -/
def as_define_region (σ : Sys) (as : addrspace) (vaddr memsize : Nat)
    (readable writeable executable : Nat) : Nat × addrspace × Sys :=
  let memsize1 := (memsize + (vaddr &&& 0xFFF)) % U32
  let vaddr1 := vaddr &&& PAGE_FRAME
  let memsize2 := ((memsize1 + PAGE_SIZE - 1) % U32) &&& PAGE_FRAME
  match kmalloc σ with
  | (none, σ1) => (ENOMEM, as, σ1)
  | (some _, σ1) =>
    let flags := readable ||| writeable ||| executable
    let new_region : Region :=
      { as_vbase := vaddr1, size := memsize2, flags := flags, og_flags := flags }
    (0, { as with regions := new_region :: as.regions }, σ1)

/-- The loop of as_prepare_load (addrspace.c:241-246): save the current flags
into og_flags and force flags to writable-readable. -/
def prepare_load_loop : List Region → List Region
  | [] => []
  | r :: rest => { r with og_flags := r.flags, flags := PF_W ||| PF_R } :: prepare_load_loop rest

/-- as_prepare_load (addrspace.c:236-249): EFAULT on NULL, else run the loop. -/
def as_prepare_load (as? : Option addrspace) : Nat × Option addrspace :=
  match as? with
  | none => (EFAULT, none)
  | some as => (0, some { as with regions := prepare_load_loop as.regions })

/-- The loop of as_complete_load (addrspace.c:256-260): restore flags from og_flags. -/
def complete_load_loop : List Region → List Region
  | [] => []
  | r :: rest => { r with flags := r.og_flags } :: complete_load_loop rest

/-- as_complete_load (addrspace.c:251-265): EFAULT on NULL, restore every
region's flags, then deactivate (full TLB flush of the current space). -/
def as_complete_load (cur : Option addrspace) (σ : Sys) (as? : Option addrspace) :
    Nat × Option addrspace × Sys :=
  match as? with
  | none => (EFAULT, none, σ)
  | some as =>
    (0, some { as with regions := complete_load_loop as.regions }, as_deactivate cur σ)

/-- An empty address space with a fresh (all-empty) page table, used as a
concrete input by witnesses. -/
def as0 : addrspace :=
  { regions := [], pagetable := some (fun _ => none), stackbase := USERSTACK }

/-- A concrete machine state with ample allocation budget, used as a concrete
input by witnesses. -/
def sysT : Sys :=
  { mem := fun _ => 0, nextPage := 1, allocatedFrames := [], framePlan := [true, true, true, true],
    kmPlan := [true, true, true, true, true, true], junk := fun _ _ => 0, kmCount := 0, tlb := [] }

/-- An address space with one read-only region at [0x1000, 0x2000) and an
empty page table, used as a concrete input by witnesses. -/
def asR : addrspace :=
  { regions := [{ as_vbase := 0x1000, size := 0x1000, flags := PF_R, og_flags := PF_R }],
    pagetable := some (fun _ => none), stackbase := USERSTACK }

/-- A region covering virtual page zero, used as a concrete input by
witnesses. -/
def regZ : Region := { as_vbase := 0, size := 4096, flags := PF_R, og_flags := PF_R }

/-- An address space whose only region covers page zero, with an empty page
table, used as a concrete input by witnesses. -/
def asZ : addrspace :=
  { regions := [regZ], pagetable := some (fun _ => none), stackbase := USERSTACK }

/-- An L2 array holding one resident entry at slot 0: frame at physical
address 0, dirty and valid (EntryLo 0x600), used by the C1 failing input. -/
def l2src : Nat → Nat := fun lsb => if lsb = 0 then 0x600 else 0

/-- A source page table with a single resident page at (0, 0), used by the
C1 failing input. -/
def ptsrc : PT := fun msb => if msb = 0 then some l2src else none

/-- The C1 failing input's source address space: one resident page, no
regions. -/
def asSrc : addrspace :=
  { regions := [], pagetable := some ptsrc, stackbase := USERSTACK }

/-- The C1 failing input's machine state: the source's frame (kvaddr
0x80000000) is allocated; kmalloc always succeeds but the first frame
allocation fails, modelling out-of-memory in mid-copy. -/
def sysOom : Sys :=
  { mem := fun _ => 0, nextPage := 1, allocatedFrames := [0x80000000],
    framePlan := [false], kmPlan := [true, true, true, true],
    junk := fun _ _ => 0, kmCount := 0, tlb := [] }

/-- The per-slot relation established by a successful copy_pt: an empty
source slot stays empty; a resident source slot yields a resident copy slot
with the same dirty bit, the valid bit set, a different physical frame, both
frames below the allocation watermark `w` (in pages), and byte-for-byte
equal frame contents in memory `mem`. -/
def copy_rel (mem : Nat → Nat) (w : Nat) (eo ec : Nat) : Prop :=
  if eo = 0 then ec = 0
  else
    ec ≠ 0 ∧
    ec &&& TLBLO_DIRTY = eo &&& TLBLO_DIRTY ∧
    ec &&& TLBLO_VALID = TLBLO_VALID ∧
    ec &&& PAGE_FRAME ≠ eo &&& PAGE_FRAME ∧
    (ec &&& PAGE_FRAME) + PAGE_SIZE ≤ w * PAGE_SIZE ∧
    (eo &&& PAGE_FRAME) + PAGE_SIZE ≤ w * PAGE_SIZE ∧
    ∀ off, off < PAGE_SIZE →
      mem (PADDR_TO_KVADDR (ec &&& PAGE_FRAME) + off) =
      mem (PADDR_TO_KVADDR (eo &&& PAGE_FRAME) + off)

/-- The machine state after as_copy of an empty address space from `sysT`:
two kmallocs consumed, nothing else changed.  Used by witnesses. -/
def sysE : Sys :=
  { mem := fun _ => 0, nextPage := 1, allocatedFrames := [], framePlan := [true, true, true, true],
    kmPlan := [true, true, true, true], junk := fun _ _ => 0, kmCount := 2, tlb := [] }

/- ------------------------------------------------------------------ -/
/- Theorems.                                                          -/
/- ------------------------------------------------------------------ -/

/-- Bitmask toolkit: AND with a low-bit mask is remainder. -/
theorem land_mask_mod (x n : Nat) : x &&& (2 ^ n - 1) = x % 2 ^ n := by
  apply Nat.eq_of_testBit_eq
  intro i
  rw [Nat.testBit_and, Nat.testBit_mod_two_pow, Nat.testBit_two_pow_sub_one]
  exact Bool.and_comm _ _

/-- Bitmask toolkit: OR of a 2^n-aligned value with a low value is addition. -/
theorem lor_eq_add_of_aligned (n m b : Nat) (hb : b < 2 ^ n) :
    (2 ^ n * m) ||| b = 2 ^ n * m + b := by
  apply Nat.eq_of_testBit_eq
  intro i
  rw [Nat.testBit_or, Nat.testBit_mul_pow_two_add m hb i]
  by_cases h : i < n
  · have h1 : (2 ^ n * m).testBit i = false := by
      have he : 2 ^ n * m = m <<< n := by rw [Nat.shiftLeft_eq]; ring
      rw [he, Nat.testBit_shiftLeft]
      simp [Nat.not_le.mpr h]
    simp [h, h1]
  · have h1 : (2 ^ n * m).testBit i = m.testBit (i - n) := by
      have he : 2 ^ n * m = m <<< n := by rw [Nat.shiftLeft_eq]; ring
      rw [he, Nat.testBit_shiftLeft]
      simp [Nat.le_of_not_lt h]
    have h2 : b.testBit i = false :=
      Nat.testBit_lt_two_pow
        (lt_of_lt_of_le hb (Nat.pow_le_pow_right (by norm_num) (Nat.le_of_not_lt h)))
    simp [h, h1, h2]

/-- Bitmask toolkit: AND with a single power of two, in div/mod form. -/
theorem land_two_pow_arith (x n : Nat) : x &&& 2 ^ n = x / 2 ^ n % 2 * 2 ^ n := by
  apply Nat.eq_of_testBit_eq
  intro i
  rw [Nat.testBit_and, Nat.testBit_two_pow]
  by_cases h : n = i
  · subst h
    rw [Nat.testBit_to_div_mod]
    by_cases h1 : x / 2 ^ n % 2 = 1
    · simp [h1, Nat.testBit_two_pow]
    · have h2 : x / 2 ^ n % 2 = 0 := by omega
      simp [h1, h2]
  · by_cases h1 : x / 2 ^ n % 2 = 1
    · simp [h1, Nat.testBit_two_pow, h]
    · have h2 : x / 2 ^ n % 2 = 0 := by omega
      simp [h2, h]

/-- Bitmask toolkit: AND with PAGE_FRAME rounds a 32-bit value down to a page
boundary. -/
theorem land_page_frame (x : Nat) (hx : x < 2 ^ 32) : x &&& 0xFFFFF000 = x / 4096 * 4096 := by
  apply Nat.eq_of_testBit_eq
  intro i
  have hm : (0xFFFFF000 : Nat) = (2 ^ 20 - 1) <<< 12 := by decide
  have hr : x / 4096 * 4096 = (x >>> 12) <<< 12 := by
    rw [Nat.shiftRight_eq_div_pow, Nat.shiftLeft_eq]
  rw [hm, hr, Nat.testBit_and, Nat.testBit_shiftLeft, Nat.testBit_shiftLeft,
    Nat.testBit_shiftRight, Nat.testBit_two_pow_sub_one]
  by_cases h12 : 12 ≤ i
  · have he : 12 + (i - 12) = i := by omega
    rw [he]
    by_cases h32 : i < 32
    · have hlt : i - 12 < 20 := by omega
      simp [h12, hlt]
    · have hbf : x.testBit i = false :=
        Nat.testBit_lt_two_pow (lt_of_lt_of_le hx (Nat.pow_le_pow_right (by norm_num) (by omega)))
      simp [hbf]
  · simp [h12]

/-- Bitmask toolkit: OR of a 1024-multiple with the VALID bit is addition. -/
theorem lor_512_aligned (m : Nat) : (1024 * m) ||| 512 = 1024 * m + 512 := by
  have hb : (512 : Nat) < 2 ^ 10 := by norm_num
  have h := lor_eq_add_of_aligned 10 m 512 hb
  norm_num at h
  exact h

/-- Bitmask toolkit: the EntryLo word built by the page-table writers, in
additive form. -/
theorem pte_word_eq_add (k d : Nat) (hd : d = 0 ∨ d = 1024) :
    (4096 * k) ||| d ||| 512 = 4096 * k + d + 512 := by
  have h1 : (4096 * k) ||| d = 4096 * k + d := by
    have hb : d < 2 ^ 12 := by rcases hd with h | h <;> simp [h]
    have h2 := lor_eq_add_of_aligned 12 k d hb
    norm_num at h2
    exact h2
  rw [h1]
  rcases hd with h | h
  · subst h
    have he : 4096 * k + 0 = 1024 * (4 * k) := by ring
    rw [he, lor_512_aligned]
  · subst h
    have he : 4096 * k + 1024 = 1024 * (4 * k + 1) := by ring
    rw [he, lor_512_aligned]

/-- Bitmask toolkit: the dirty bit, valid bit, frame bits and non-zeroness of
a freshly built EntryLo word. -/
theorem pte_word_land (k d : Nat) (hk : k < 2 ^ 20) (hd : d = 0 ∨ d = 1024) :
    ((4096 * k) ||| d ||| 512) &&& 1024 = d ∧
    ((4096 * k) ||| d ||| 512) &&& 512 = 512 ∧
    ((4096 * k) ||| d ||| 512) &&& 0xFFFFF000 = 4096 * k ∧
    ((4096 * k) ||| d ||| 512) ≠ 0 := by
  rw [pte_word_eq_add k d hd]
  have hN : 4096 * k + d + 512 < 2 ^ 32 := by
    rcases hd with h | h <;> subst h <;> simp at hk ⊢ <;> omega
  have h1 := land_two_pow_arith (4096 * k + d + 512) 10
  have h2 := land_two_pow_arith (4096 * k + d + 512) 9
  have h3 := land_page_frame _ hN
  norm_num at h1 h2
  refine ⟨?_, ?_, ?_, ?_⟩
  · rw [h1]; rcases hd with h | h <;> subst h <;> omega
  · rw [h2]; rcases hd with h | h <;> subst h <;> omega
  · rw [h3]; rcases hd with h | h <;> subst h <;> omega
  · omega

/-- Bitmask toolkit: extracting the dirty bit yields 0 or the bit itself. -/
theorem land_1024_cases (x : Nat) : x &&& 1024 = 0 ∨ x &&& 1024 = 1024 := by
  have h := land_two_pow_arith x 10
  norm_num at h
  rw [h]
  omega

/-- C8: for every 32-bit address, the L2 index computed by vm_fault as
`(addr << 11) >> 23` in 32-bit unsigned arithmetic equals `(addr >> 12) & 0x1FF`,
which is bits [20:12] of the address; the L1 index `addr >> 21` is bits
[31:21]; the L1 index is below 2048 and the L2 index below 512. -/
theorem c8_index_extraction (addr : Nat) (h32 : addr < 2 ^ 32) :
    l2_index addr = (addr >>> 12) &&& 0x1FF ∧
    l2_index addr = addr / 2 ^ 12 % 2 ^ 9 ∧
    l1_index addr = addr / 2 ^ 21 ∧
    l1_index addr < 2048 ∧ l2_index addr < 512 := by
  have h9 : (addr >>> 12) &&& 0x1FF = (addr >>> 12) % 512 := by
    have h := land_mask_mod (addr >>> 12) 9
    norm_num at h
    exact h
  unfold l1_index l2_index U32
  rw [h9, Nat.shiftLeft_eq, Nat.shiftRight_eq_div_pow, Nat.shiftRight_eq_div_pow,
    Nat.shiftRight_eq_div_pow]
  norm_num
  omega

/-- Witness for C8 at the concrete address 0xDEADBEEF. -/
theorem c8_index_extraction_witness :
    (0xDEADBEEF : Nat) < 2 ^ 32 ∧
    (l2_index 0xDEADBEEF = (0xDEADBEEF >>> 12) &&& 0x1FF ∧
     l2_index 0xDEADBEEF = 0xDEADBEEF / 2 ^ 12 % 2 ^ 9 ∧
     l1_index 0xDEADBEEF = 0xDEADBEEF / 2 ^ 21 ∧
     l1_index 0xDEADBEEF < 2048 ∧ l2_index 0xDEADBEEF < 512) :=
  ⟨by norm_num, c8_index_extraction 0xDEADBEEF (by norm_num)⟩

/-- Helper: complete_load after prepare_load restores the flags of every
region, position by position. -/
theorem complete_prepare_flags (rs : List Region) :
    (complete_load_loop (prepare_load_loop rs)).map Region.flags = rs.map Region.flags := by
  induction rs with
  | nil => rfl
  | cons r rest ih => simp [prepare_load_loop, complete_load_loop, ih]

/-- Helper: after two prepare_loads, a complete_load leaves every region's
flags at the forced writable-readable value. -/
theorem complete_prepare_prepare_flags (rs : List Region) :
    (complete_load_loop (prepare_load_loop (prepare_load_loop rs))).map Region.flags =
      rs.map (fun _ => PF_W ||| PF_R) := by
  induction rs with
  | nil => rfl
  | cons r rest ih => simp [prepare_load_loop, complete_load_loop, ih]

/-- Helper: if the flags column of a region list is a constant column, every
member's flags equal that constant. -/
theorem flags_all_const_of_map_eq (c : Nat) :
    ∀ rs : List Region, rs.map Region.flags = rs.map (fun _ => c) →
      ∀ r ∈ rs, r.flags = c := by
  intro rs
  induction rs with
  | nil => intro h r hr; cases hr
  | cons a rest ih =>
    intro h r hr
    simp only [List.map_cons, List.cons.injEq] at h
    rcases List.mem_cons.mp hr with hr1 | hr1
    · rw [hr1]; exact h.1
    · exact ih h.2 r hr1

/-- C6: for every (non-null) address space, as_prepare_load followed by
as_complete_load leaves every region's flags equal to the value it had
immediately before the as_prepare_load call. -/
theorem c6_prepare_complete_restores_flags (cur : Option addrspace) (σ : Sys) (as : addrspace) :
    ∃ as2 σ2,
      as_complete_load cur σ (as_prepare_load (some as)).2 = (0, some as2, σ2) ∧
      as2.regions.map Region.flags = as.regions.map Region.flags := by
  refine ⟨_, _, rfl, ?_⟩
  simpa [as_prepare_load, as_complete_load] using complete_prepare_flags as.regions

/-- C9: as_prepare_load is not idempotent: on an address space holding a
region whose flags differ from R|W, running as_prepare_load twice and then
as_complete_load leaves every region's flags at R|W, which differs from the
original flags column. -/
theorem c9_prepare_load_not_idempotent (cur : Option addrspace) (σ : Sys) (as : addrspace)
    (r : Region) (hr : r ∈ as.regions) (hne : r.flags ≠ PF_W ||| PF_R) :
    ∃ as2 σ2,
      as_complete_load cur σ (as_prepare_load (as_prepare_load (some as)).2).2 = (0, some as2, σ2) ∧
      as2.regions.map Region.flags = as.regions.map (fun _ => PF_W ||| PF_R) ∧
      as2.regions.map Region.flags ≠ as.regions.map Region.flags := by
  refine ⟨_, _, rfl, ?_, ?_⟩
  · simpa [as_prepare_load, as_complete_load] using
      complete_prepare_prepare_flags as.regions
  · intro hcontra
    have h1 : as.regions.map Region.flags = as.regions.map (fun _ => PF_W ||| PF_R) := by
      rw [← hcontra]
      simpa [as_prepare_load, as_complete_load] using
        complete_prepare_prepare_flags as.regions
    exact hne (flags_all_const_of_map_eq (PF_W ||| PF_R) as.regions h1 r hr)

/-- Witness for C9 at a concrete one-region address space with read-only flags. -/
theorem c9_prepare_load_not_idempotent_witness :
    ∃ as2 σ2,
      as_complete_load none sysT
        (as_prepare_load (as_prepare_load (some
          ({ regions := [{ as_vbase := 0, size := 4096, flags := PF_R, og_flags := PF_R }],
             pagetable := none, stackbase := USERSTACK } : addrspace))).2).2 = (0, some as2, σ2) ∧
      as2.regions.map Region.flags =
        ([{ as_vbase := 0, size := 4096, flags := PF_R, og_flags := PF_R }] : List Region).map
          (fun _ => PF_W ||| PF_R) ∧
      as2.regions.map Region.flags ≠
        ([{ as_vbase := 0, size := 4096, flags := PF_R, og_flags := PF_R }] : List Region).map
          Region.flags :=
  c9_prepare_load_not_idempotent none sysT
    ({ regions := [{ as_vbase := 0, size := 4096, flags := PF_R, og_flags := PF_R }],
       pagetable := none, stackbase := USERSTACK } : addrspace)
    ({ as_vbase := 0, size := 4096, flags := PF_R, og_flags := PF_R } : Region)
    (by simp) (by decide)

/-- Counterexample for C2: as_define_region accepts vaddr 0x90000000 (deep in
the kernel range) with memsize 0 and succeeds, storing a region of size 0
whose end address 0x90000000 lies above the top of user space — refuting the
claimed guarantees that the stored size is positive and that vbase + size
stays out of the kernel range. -/
theorem c2_define_region_counterexample :
    (as_define_region sysT as0 0x90000000 0 PF_R 0 0).1 = 0 ∧
    (as_define_region sysT as0 0x90000000 0 PF_R 0 0).2.1.regions.map
      (fun r => (r.as_vbase, r.size)) = [(0x90000000, 0)] ∧
    ¬ (∀ r ∈ (as_define_region sysT as0 0x90000000 0 PF_R 0 0).2.1.regions,
        0 < r.size ∧ r.as_vbase + r.size ≤ USERSTACK) := by
  refine ⟨by decide, by decide, ?_⟩
  intro h
  have hm : ({ as_vbase := 0x90000000, size := 0, flags := PF_R, og_flags := PF_R } : Region) ∈
      (as_define_region sysT as0 0x90000000 0 PF_R 0 0).2.1.regions := by decide
  have := h _ hm
  simp at this

/-- C2 (amended): whenever as_define_region succeeds on a 32-bit vaddr and the
page-rounding arithmetic does not wrap 32 bits, the stored region sits at the
head of the list with vbase equal to vaddr rounded down to a PAGE_SIZE
multiple (so vbase % PAGE_SIZE = 0), size a PAGE_SIZE multiple, and
size ≥ memsize.  The source performs no check that the size is positive and
no overflow or kernel-range check on vbase + size (see the counterexample). -/
theorem c2_define_region_amended (σ : Sys) (as : addrspace) (vaddr memsize r w x : Nat)
    (as2 : addrspace) (σ2 : Sys)
    (hsucc : as_define_region σ as vaddr memsize r w x = (0, as2, σ2))
    (hv : vaddr < 2 ^ 32)
    (hno : vaddr % PAGE_SIZE + memsize + (PAGE_SIZE - 1) < 2 ^ 32) :
    ∃ reg, as2.regions = reg :: as.regions ∧
      reg.as_vbase = vaddr / PAGE_SIZE * PAGE_SIZE ∧
      reg.as_vbase % PAGE_SIZE = 0 ∧
      reg.size % PAGE_SIZE = 0 ∧
      memsize ≤ reg.size := by
  have hoff : vaddr &&& 0xFFF = vaddr % 4096 := by
    have h := land_mask_mod vaddr 12
    norm_num at h
    exact h
  have hvb : vaddr &&& PAGE_FRAME = vaddr / 4096 * 4096 := land_page_frame vaddr hv
  unfold as_define_region at hsucc
  rcases hkm : kmalloc σ with ⟨o, σ1⟩
  rw [hkm] at hsucc
  cases o with
  | none =>
    exfalso
    simp only [ENOMEM] at hsucc
    exact absurd (congrArg Prod.fst hsucc) (by norm_num)
  | some kid =>
    simp only [Prod.mk.injEq] at hsucc
    obtain ⟨-, hAs, -⟩ := hsucc
    rw [← hAs]
    refine ⟨_, rfl, ?_, ?_, ?_, ?_⟩ <;>
      simp only [PAGE_SIZE, PAGE_FRAME, U32] at hno hvb ⊢
    · exact hvb
    · rw [hvb]; omega
    · rw [hoff]
      have hin : (memsize + vaddr % 4096) % 2 ^ 32 = memsize + vaddr % 4096 := by omega
      rw [hin]
      have hin2 : (memsize + vaddr % 4096 + 4096 - 1) % 2 ^ 32 =
          memsize + vaddr % 4096 + 4095 := by omega
      rw [hin2, land_page_frame _ (by omega)]
      omega
    · rw [hoff]
      have hin : (memsize + vaddr % 4096) % 2 ^ 32 = memsize + vaddr % 4096 := by omega
      rw [hin]
      have hin2 : (memsize + vaddr % 4096 + 4096 - 1) % 2 ^ 32 =
          memsize + vaddr % 4096 + 4095 := by omega
      rw [hin2, land_page_frame _ (by omega)]
      omega

/-- Witness for the amended C2 at a concrete unaligned request. -/
theorem c2_define_region_amended_witness :
    ∃ reg,
      (as_define_region sysT as0 0x1234 10 PF_R PF_W PF_X).2.1.regions = reg :: as0.regions ∧
      reg.as_vbase = 0x1234 / PAGE_SIZE * PAGE_SIZE ∧
      reg.as_vbase % PAGE_SIZE = 0 ∧
      reg.size % PAGE_SIZE = 0 ∧
      10 ≤ reg.size :=
  c2_define_region_amended sysT as0 0x1234 10 PF_R PF_W PF_X _ _ rfl (by norm_num)
    (by norm_num [PAGE_SIZE])

/-- Counterexample for C4: the READONLY fault and a fault at an address
outside every region return the very same error value EFAULT; the code does
not use a distinct permission-fault error kind. -/
theorem c4_counterexample :
    (vm_fault true (some asR) sysT VM_FAULT_READONLY 0x5000).1 = EFAULT ∧
    (vm_fault true (some asR) sysT VM_FAULT_READ 0x5000).1 = EFAULT ∧
    (vm_fault true (some asR) sysT VM_FAULT_READONLY 0x5000).1 =
      (vm_fault true (some asR) sysT VM_FAULT_READ 0x5000).1 := by
  refine ⟨by decide, by decide, by decide⟩

/-- Helper: the page allocator never touches the TLB. -/
theorem alloc_kpages_tlb (σ : Sys) : (alloc_kpages σ).2.tlb = σ.tlb := by
  unfold alloc_kpages
  cases h : σ.framePlan with
  | nil => rfl
  | cons ok rest => cases ok <;> simp

/-- Helper: kmalloc never touches the TLB. -/
theorem kmalloc_tlb (σ : Sys) : (kmalloc σ).2.tlb = σ.tlb := by
  unfold kmalloc
  cases h : σ.kmPlan with
  | nil => rfl
  | cons ok rest => cases ok <;> simp

/-- Helper: creating an L2 array never touches the TLB. -/
theorem create_pt_l2_tlb (σ : Sys) (pt : PT) (msb : Nat) :
    (create_pt_l2 σ pt msb).2.2.tlb = σ.tlb := by
  unfold create_pt_l2
  cases hpm : pt msb with
  | some l2 => rfl
  | none =>
    have hk := kmalloc_tlb σ
    rcases hkm : kmalloc σ with ⟨o, σ1⟩
    rw [hkm] at hk
    cases o <;> simpa using hk

/-- Helper: installing a page-table entry never touches the TLB. -/
theorem create_pte_tlb (σ : Sys) (pt : PT) (msb lsb dirty : Nat) :
    (create_pte σ pt msb lsb dirty).2.2.tlb = σ.tlb := by
  unfold create_pte
  by_cases hn : (pt msb).isNone
  · rw [if_pos hn]
    have hl2 := create_pt_l2_tlb σ pt msb
    rcases h2 : create_pt_l2 σ pt msb with ⟨res, pt1, σ1⟩
    rw [h2] at hl2
    simp only at hl2
    by_cases hres : res ≠ 0
    · simp [hres, hl2]
    · simp only [ne_eq, not_not] at hres
      subst hres
      simp only [ne_eq, not_true_eq_false, ite_false, if_neg]
      split
      · exact hl2
      · have ha := alloc_kpages_tlb σ1
        rcases hal : alloc_kpages σ1 with ⟨vb, σ2⟩
        rw [hal] at ha
        simp only at ha
        by_cases hvb : vb = 0
        · simp [hvb, ha, hl2]
        · simp [hvb, bzero, ha, hl2]
  · rw [if_neg hn]
    simp only [ne_eq, not_true_eq_false, ite_false, if_neg]
    split
    · rfl
    · have ha := alloc_kpages_tlb σ
      rcases hal : alloc_kpages σ with ⟨vb, σ2⟩
      rw [hal] at ha
      simp only at ha
      by_cases hvb : vb = 0
      · simp [hvb, ha]
      · simp [hvb, bzero, ha]

/-- C4 (amended): a READONLY fault returns EFAULT unconditionally, and this
is the very same error value that vm_fault returns for a fault address lying
outside every region — the code does not use a distinct permission-fault
error kind. -/
theorem c4_readonly_not_distinct (p1 : Bool) (a1 : Option addrspace) (σ1 : Sys) (addr1 : Nat)
    (as : addrspace) (σ : Sys) (addr : Nat) (pt : PT)
    (hpt : as.pagetable = some pt)
    (hmiss : pte_exists (some pt) (l1_index (addr &&& PAGE_FRAME))
      (l2_index (addr &&& PAGE_FRAME)) = false)
    (hfind : as.regions.find? (region_contains (addr &&& PAGE_FRAME)) = none) :
    (vm_fault p1 a1 σ1 VM_FAULT_READONLY addr1).1 = EFAULT ∧
    (vm_fault true (some as) σ VM_FAULT_READ addr).1 = EFAULT ∧
    (vm_fault p1 a1 σ1 VM_FAULT_READONLY addr1).1 =
      (vm_fault true (some as) σ VM_FAULT_READ addr).1 := by
  have h1 : (vm_fault p1 a1 σ1 VM_FAULT_READONLY addr1).1 = EFAULT := by
    simp [vm_fault]
  have h2 : (vm_fault true (some as) σ VM_FAULT_READ addr).1 = EFAULT := by
    by_cases haddr : addr = 0
    · simp [vm_fault, haddr, VM_FAULT_READ, VM_FAULT_READONLY, VM_FAULT_WRITE]
    · by_cases hemp : as.regions.isEmpty
      · simp [vm_fault, haddr, hemp, hpt, VM_FAULT_READ, VM_FAULT_READONLY, VM_FAULT_WRITE]
      · simp [vm_fault, haddr, hemp, hpt, hmiss, hfind,
          VM_FAULT_READ, VM_FAULT_READONLY, VM_FAULT_WRITE]
  exact ⟨h1, h2, by rw [h1, h2]⟩

/-- Witness for the amended C4: a READONLY fault and a READ fault at 0x5000
(outside the only region of asR) both return EFAULT. -/
theorem c4_readonly_not_distinct_witness :
    (vm_fault true (some asR) sysT VM_FAULT_READONLY 0x5000).1 = EFAULT ∧
    (vm_fault true (some asR) sysT VM_FAULT_READ 0x5000).1 = EFAULT ∧
    (vm_fault true (some asR) sysT VM_FAULT_READONLY 0x5000).1 =
      (vm_fault true (some asR) sysT VM_FAULT_READ 0x5000).1 :=
  c4_readonly_not_distinct true (some asR) sysT 0x5000 asR sysT 0x5000 (fun _ => none)
    rfl (by decide) (by decide)

/-- C5: a WRITE fault with no page-table entry whose page-aligned address
falls (first) in a region with the W bit clear returns EFAULT and leaves the
whole state untouched: no frame allocated, no page-table entry created, no
TLB write. -/
theorem c5_write_readonly_region_no_effect (σ : Sys) (as : addrspace) (addr : Nat)
    (pt : PT) (r : Region)
    (hpt : as.pagetable = some pt)
    (hmiss : pte_exists (some pt) (l1_index (addr &&& PAGE_FRAME))
      (l2_index (addr &&& PAGE_FRAME)) = false)
    (hfind : as.regions.find? (region_contains (addr &&& PAGE_FRAME)) = some r)
    (hW : r.flags &&& PF_W ≠ PF_W) :
    vm_fault true (some as) σ VM_FAULT_WRITE addr = (EFAULT, some as, σ) := by
  by_cases haddr : addr = 0
  · simp [vm_fault, haddr, VM_FAULT_READ, VM_FAULT_READONLY, VM_FAULT_WRITE]
  · have hemp : as.regions.isEmpty = false := by
      cases hr : as.regions with
      | nil => rw [hr] at hfind; simp [List.find?] at hfind
      | cons a rest => simp
    simp [vm_fault, haddr, hemp, hpt, hmiss, hfind, hW,
      VM_FAULT_READ, VM_FAULT_READONLY, VM_FAULT_WRITE]

/-- Witness for C5: a WRITE fault at 0x1234 inside the read-only region of
asR returns EFAULT with the state unchanged. -/
theorem c5_write_readonly_region_no_effect_witness :
    vm_fault true (some asR) sysT VM_FAULT_WRITE 0x1234 = (EFAULT, some asR, sysT) :=
  c5_write_readonly_region_no_effect sysT asR 0x1234 (fun _ => none)
    { as_vbase := 0x1000, size := 0x1000, flags := PF_R, og_flags := PF_R }
    rfl (by decide) (by decide) (by decide)

/-- C7: every error return of vm_fault happens without any TLB write, and
vm_fault never changes the region list of the current address space (on any
input, error or success). -/
theorem c7_failure_no_tlb_write_regions_preserved (p : Bool) (as? : Option addrspace)
    (σ : Sys) (ft addr : Nat) :
    ((vm_fault p as? σ ft addr).1 ≠ 0 → (vm_fault p as? σ ft addr).2.2.tlb = σ.tlb) ∧
    (vm_fault p as? σ ft addr).2.1.map addrspace.regions = as?.map addrspace.regions := by
  unfold vm_fault
  split
  · simp
  split
  · simp
  split
  · simp
  split
  · simp
  split
  · simp
  split
  · simp
  split
  · simp
  dsimp only
  split
  · split
    · simp
    · split
      · simp
      · split
        · simp [vm_fault_finish, tlb_random]
        · rename_i res pt2 σ2 hcp hres
          refine ⟨fun _ => ?_, by simp⟩
          have htlb := congrArg (fun t => t.2.2.tlb) hres
          dsimp only at htlb
          rw [← htlb]
          exact create_pte_tlb σ _ _ _ _
  · simp [vm_fault_finish, tlb_random]

/-- Witness for C7: a READONLY fault (an error return) leaves the TLB log
untouched and the region list unchanged. -/
theorem c7_failure_no_tlb_write_regions_preserved_witness :
    (vm_fault true (some asR) sysT VM_FAULT_READONLY 0x1234).2.2.tlb = sysT.tlb ∧
    (vm_fault true (some asR) sysT VM_FAULT_READONLY 0x1234).2.1.map addrspace.regions =
      (some asR).map addrspace.regions :=
  ⟨(c7_failure_no_tlb_write_regions_preserved true (some asR) sysT VM_FAULT_READONLY 0x1234).1
      (by decide),
   (c7_failure_no_tlb_write_regions_preserved true (some asR) sysT VM_FAULT_READONLY 0x1234).2⟩

/-- Helper: reading back a just-written page-table slot. -/
theorem pt_entry_pt_set_same (pt : PT) (m l v : Nat) (h : (pt m).isSome) :
    pt_entry (pt_set pt m l v) m l = v := by
  unfold pt_entry pt_set
  cases hm : pt m with
  | none => rw [hm] at h; simp at h
  | some l2 => simp [hm]

/-- C10: the null-address rejection of vm_fault applies only to the exact
address 0: for any fault address strictly between 0 and PAGE_SIZE, given a
current address space whose first matching region covers page zero and an
empty L1 slot 0, a READ fault succeeds — the address is aligned down to 0, a
frame is installed at (0, 0), and a valid TLB entry with EntryHi 0 is
loaded. -/
theorem c10_page_zero_reachable (σ : Sys) (as : addrspace) (addr : Nat) (pt : PT) (r : Region)
    (kp fp : List Bool)
    (h1 : 1 ≤ addr) (h2 : addr < PAGE_SIZE)
    (hpt : as.pagetable = some pt) (hl2 : pt 0 = none)
    (hfind : as.regions.find? (region_contains 0) = some r)
    (hkm : σ.kmPlan = true :: kp) (hfp : σ.framePlan = true :: fp)
    (hcap : σ.nextPage < 2 ^ 20) :
    ∃ pt2 σ2 e,
      vm_fault true (some as) σ VM_FAULT_READ addr =
        (0, some { as with pagetable := some pt2 }, σ2) ∧
      pt_entry pt2 0 0 = e ∧
      pte_exists (some pt2) 0 0 = true ∧
      e &&& TLBLO_VALID = TLBLO_VALID ∧ e ≠ 0 ∧
      σ2.tlb = σ.tlb ++ [(0, e, none)] := by
  have haddr32 : addr < 2 ^ 32 := by
    simp [PAGE_SIZE] at h2
    omega
  have hmask : addr &&& PAGE_FRAME = 0 := by
    have h := land_page_frame addr haddr32
    simp only [PAGE_FRAME]
    rw [h]
    simp [PAGE_SIZE] at h2
    omega
  have haddr0 : ¬ addr = 0 := by omega
  have hemp : as.regions.isEmpty = false := by
    cases hr : as.regions with
    | nil => rw [hr] at hfind; simp [List.find?] at hfind
    | cons a rest => simp
  have hpte0 : pte_exists (some pt) 0 0 = false := by simp [pte_exists, hl2]
  have hms : l1_index 0 = 0 := by decide
  have hls : l2_index 0 = 0 := by decide
  have hvbne : ¬ MIPS_KSEG0 + σ.nextPage * PAGE_SIZE = 0 := by
    simp [MIPS_KSEG0, PAGE_SIZE]
  have hword : (KVADDR_TO_PADDR (MIPS_KSEG0 + σ.nextPage * PAGE_SIZE) &&& PAGE_FRAME) =
      4096 * σ.nextPage := by
    have he : KVADDR_TO_PADDR (MIPS_KSEG0 + σ.nextPage * PAGE_SIZE) = σ.nextPage * 4096 := by
      simp [KVADDR_TO_PADDR, MIPS_KSEG0, PAGE_SIZE]
    rw [he]
    simp only [PAGE_FRAME]
    rw [land_page_frame (σ.nextPage * 4096) (by nlinarith [hcap])]
    omega
  set dv : Nat := if r.flags &&& PF_W = PF_W then TLBLO_DIRTY else 0 with hdv
  have hdcases : dv = 0 ∨ dv = 1024 := by
    rw [hdv]
    split
    · right; rfl
    · left; rfl
  set W : Nat :=
    (KVADDR_TO_PADDR (MIPS_KSEG0 + σ.nextPage * PAGE_SIZE) &&& PAGE_FRAME) ||| dv |||
      TLBLO_VALID with hWdef
  obtain ⟨hw1, hw2, hw3, hw4⟩ := pte_word_land σ.nextPage dv hcap hdcases
  have hWeq : W = (4096 * σ.nextPage) ||| dv ||| 512 := by
    rw [hWdef, hword]
    rfl
  have hcp : create_pte σ pt 0 0 dv =
      (0, pt_set (pt_set_l2 pt 0 (fun _ => 0)) 0 0 W,
        bzero { σ with kmPlan := kp, kmCount := σ.kmCount + 1, framePlan := fp,
                       nextPage := σ.nextPage + 1,
                       allocatedFrames :=
                         (MIPS_KSEG0 + σ.nextPage * PAGE_SIZE) :: σ.allocatedFrames }
          (MIPS_KSEG0 + σ.nextPage * PAGE_SIZE) PAGE_SIZE) := by
    rw [hWdef]
    unfold create_pte create_pt_l2 kmalloc alloc_kpages pt_entry pt_set_l2
    simp [hl2, hkm, hfp, hvbne]
  have hread : pt_entry (pt_set (pt_set_l2 pt 0 (fun _ => 0)) 0 0 W) 0 0 = W := by
    apply pt_entry_pt_set_same
    simp [pt_set_l2]
  have hWne : W ≠ 0 := by rw [hWeq]; exact hw4
  refine ⟨pt_set (pt_set_l2 pt 0 (fun _ => 0)) 0 0 W,
    tlb_random (bzero { σ with kmPlan := kp, kmCount := σ.kmCount + 1, framePlan := fp,
                                nextPage := σ.nextPage + 1,
                                allocatedFrames :=
                                  (MIPS_KSEG0 + σ.nextPage * PAGE_SIZE) :: σ.allocatedFrames }
      (MIPS_KSEG0 + σ.nextPage * PAGE_SIZE) PAGE_SIZE) 0 W, W, ?_, hread, ?_, ?_, hWne, ?_⟩
  · unfold vm_fault
    simp only [hmask, hms, hls, hpt, hemp, hpte0, hfind, haddr0,
      VM_FAULT_READ, VM_FAULT_READONLY, VM_FAULT_WRITE]
    norm_num
    rw [hcp]
    simp [vm_fault_finish, hread]
  · simp only [pte_exists, pt_set, pt_set_l2, hl2]
    simp [hWne]
  · rw [hWeq]
    have : TLBLO_VALID = 512 := rfl
    rw [this]
    exact hw2
  · simp [tlb_random, bzero]

/-- Witness for C10: a READ fault at address 5 in asZ succeeds and loads a
valid TLB entry for virtual page zero. -/
theorem c10_page_zero_reachable_witness :
    ∃ pt2 σ2 e,
      vm_fault true (some asZ) sysT VM_FAULT_READ 5 =
        (0, some { asZ with pagetable := some pt2 }, σ2) ∧
      pt_entry pt2 0 0 = e ∧
      pte_exists (some pt2) 0 0 = true ∧
      e &&& TLBLO_VALID = TLBLO_VALID ∧ e ≠ 0 ∧
      σ2.tlb = sysT.tlb ++ [(0, e, none)] :=
  c10_page_zero_reachable sysT asZ 5 (fun _ => none) regZ
    [true, true, true, true, true] [true, true, true]
    (by decide) (by decide) rfl rfl (by decide) rfl rfl (by decide)

set_option maxRecDepth 100000 in
/-- C1 (code bug, evaluated at the failing input): when the frame allocation
fails during copy_pt, the failing slot of the partial copy still holds the
SOURCE's raw entry (copy_pt copies it before allocating the fresh frame,
vm.c:79), and as_copy's unwind (as_destroy → destroy_pt) then frees the
frame named by that entry — a frame owned by the source.  Here the copy of
asSrc fails with ENOMEM and the source's only frame, kvaddr 0x80000000,
is freed by the unwind: the source's observable state is destroyed rather
than preserved. -/
theorem c1_unwind_frees_source_frame :
    (as_copy sysOom asSrc).1 = ENOMEM ∧
    (as_copy sysOom asSrc).2.1.isNone = true ∧
    0x80000000 ∈ sysOom.allocatedFrames ∧
    0x80000000 ∉ (as_copy sysOom asSrc).2.2.allocatedFrames := by
  refine ⟨by decide, by decide, by decide, by decide⟩

/-- Helper: copy_rel is stable under raising the watermark and under memory
changes that only touch addresses at or above the old watermark. -/
theorem copy_rel_stable (mem1 mem2 : Nat → Nat) (w1 w2 eo ec : Nat)
    (h : copy_rel mem1 w1 eo ec) (hw : w1 ≤ w2)
    (hmem : ∀ a, a < MIPS_KSEG0 + w1 * PAGE_SIZE → mem2 a = mem1 a) :
    copy_rel mem2 w2 eo ec := by
  unfold copy_rel at h ⊢
  by_cases h0 : eo = 0
  · simpa [h0] using h
  · rw [if_neg h0] at h ⊢
    obtain ⟨h1, h2, h3, h4, h5, h6, h7⟩ := h
    refine ⟨h1, h2, h3, h4, by nlinarith, by nlinarith, ?_⟩
    intro off hoff
    have hc : PADDR_TO_KVADDR (ec &&& PAGE_FRAME) + off < MIPS_KSEG0 + w1 * PAGE_SIZE := by
      simp only [PADDR_TO_KVADDR]
      omega
    have ho : PADDR_TO_KVADDR (eo &&& PAGE_FRAME) + off < MIPS_KSEG0 + w1 * PAGE_SIZE := by
      simp only [PADDR_TO_KVADDR]
      omega
    rw [hmem _ hc, hmem _ ho]
    exact h7 off hoff

/-- Helper: pt_set leaves other L1 slots alone. -/
theorem pt_set_ne (pt : PT) (m l v m' : Nat) (h : m' ≠ m) : pt_set pt m l v m' = pt m' := by
  simp [pt_set, h]

/-- Helper: pt_set_l2 leaves other L1 slots alone. -/
theorem pt_set_l2_ne (pt : PT) (m : Nat) (arr : Nat → Nat) (m' : Nat) (h : m' ≠ m) :
    pt_set_l2 pt m arr m' = pt m' := by
  simp [pt_set_l2, h]

/-- Helper: pt_set preserves presence of the touched L1 slot. -/
theorem pt_set_isSome (pt : PT) (m l v : Nat) :
    (pt_set pt m l v m).isSome = (pt m).isSome := by
  simp [pt_set]

/-- Helper: pt_set leaves other L2 slots of the same row alone. -/
theorem pt_entry_pt_set_ne_lsb (pt : PT) (m l v l' : Nat) (h : l' ≠ l) :
    pt_entry (pt_set pt m l v) m l' = pt_entry pt m l' := by
  unfold pt_entry pt_set
  cases hm : pt m with
  | none => simp
  | some l2 => simp [h]

/-- Helper: writing 0 into a slot reads back 0, present row or not. -/
theorem pt_entry_pt_set_zero (pt : PT) (m l : Nat) : pt_entry (pt_set pt m l 0) m l = 0 := by
  unfold pt_entry pt_set
  cases hm : pt m with
  | none => simp
  | some l2 => simp

/-- Helper: pt_entry only depends on the row. -/
theorem pt_entry_congr (pt1 pt2 : PT) (m l : Nat) (h : pt1 m = pt2 m) :
    pt_entry pt1 m l = pt_entry pt2 m l := by
  unfold pt_entry
  rw [h]

/-- Helper: a successful alloc_kpages returns the watermark frame and only
advances the allocator bookkeeping. -/
theorem alloc_kpages_pos (σ : Sys) (np : Nat) (σa : Sys)
    (h : alloc_kpages σ = (np, σa)) (hnp : np ≠ 0) :
    np = MIPS_KSEG0 + σ.nextPage * PAGE_SIZE ∧ σa.nextPage = σ.nextPage + 1 ∧
    σa.mem = σ.mem ∧ σa.kmPlan = σ.kmPlan ∧ σa.junk = σ.junk ∧
    σa.kmCount = σ.kmCount ∧ σa.tlb = σ.tlb := by
  unfold alloc_kpages at h
  cases hf : σ.framePlan with
  | nil =>
    rw [hf] at h
    simp at h
    exact absurd h.1.symm hnp
  | cons ok rest =>
    rw [hf] at h
    cases ok with
    | false =>
      simp at h
      exact absurd h.1.symm hnp
    | true =>
      simp at h
      obtain ⟨h1, h2⟩ := h
      rw [← h2]
      exact ⟨h1.symm, rfl, rfl, rfl, rfl, rfl, rfl⟩

/-- Helper: the bzero-then-memmove step of copy_pt does not change memory
below the fresh frame. -/
theorem step_mem_low (σa : Sys) (np src n a : Nat) (ha : a < np) :
    ((memmove (bzero σa np n) np src n).2).mem a = σa.mem a := by
  unfold memmove bzero
  dsimp only
  rw [if_neg (by omega), if_neg (by omega)]

/-- Helper: after the bzero-then-memmove step, the fresh frame holds the
source frame's bytes (when the source lies entirely below the fresh frame). -/
theorem step_mem_dst (σa : Sys) (np src n off : Nat) (hoff : off < n) (hsrc : src + n ≤ np) :
    ((memmove (bzero σa np n) np src n).2).mem (np + off) = σa.mem (src + off) := by
  unfold memmove bzero
  dsimp only
  rw [if_pos (by omega)]
  have he : src + (np + off - np) = src + off := by omega
  rw [he, if_neg (by omega)]

/-- Helper: invariant of a successful run of the copy_pt inner loop over one
L2 row: the allocator watermark only grows, memory below the starting
watermark is untouched, other rows are untouched, untraversed slots are
untouched, and every traversed slot satisfies copy_rel in the final state. -/
theorem copy_pt_inner_success (l2o : Nat → Nat) (msb : Nat) :
    ∀ (lsbs : List Nat) (σ : Sys) (ptC ptC2 : PT) (σ2 : Sys),
      copy_pt_inner σ l2o ptC msb lsbs = (0, ptC2, σ2) →
      lsbs.Nodup →
      (ptC msb).isSome = true →
      (∀ lsb ∈ lsbs, l2o lsb ≠ 0 →
        (l2o lsb &&& PAGE_FRAME) + PAGE_SIZE ≤ σ.nextPage * PAGE_SIZE) →
      σ2.nextPage ≤ 2 ^ 20 →
      σ.nextPage ≤ σ2.nextPage ∧
      (∀ a, a < MIPS_KSEG0 + σ.nextPage * PAGE_SIZE → σ2.mem a = σ.mem a) ∧
      (∀ m, m ≠ msb → ptC2 m = ptC m) ∧
      (ptC2 msb).isSome = true ∧
      (∀ l, l ∉ lsbs → pt_entry ptC2 msb l = pt_entry ptC msb l) ∧
      (∀ lsb ∈ lsbs, copy_rel σ2.mem σ2.nextPage (l2o lsb) (pt_entry ptC2 msb lsb)) := by
  intro lsbs
  induction lsbs with
  | nil =>
    intro σ ptC ptC2 σ2 h hnd hsome hw hcap
    rw [copy_pt_inner] at h
    simp only [Prod.mk.injEq] at h
    obtain ⟨-, hpt, hσ⟩ := h
    subst hpt
    subst hσ
    exact ⟨le_refl _, fun a _ => rfl, fun m _ => rfl, hsome, fun l _ => rfl, by simp⟩
  | cons lsb rest ih =>
    intro σ ptC ptC2 σ2 h hnd hsome hw hcap
    obtain ⟨hlnr, hndr⟩ := List.nodup_cons.mp hnd
    rw [copy_pt_inner] at h
    dsimp only at h
    by_cases h0 : l2o lsb = 0
    · rw [if_pos h0] at h
      obtain ⟨mono, hmem, hother, hsome2, hslots, hrel⟩ :=
        ih σ (pt_set ptC msb lsb (l2o lsb)) ptC2 σ2 h hndr
          (by rw [pt_set_isSome]; exact hsome)
          (fun l hl hne => hw l (List.mem_cons_of_mem _ hl) hne) hcap
      refine ⟨mono, hmem, ?_, hsome2, ?_, ?_⟩
      · intro m hm
        rw [hother m hm, pt_set_ne _ _ _ _ _ hm]
      · intro l hl
        have hl1 : l ≠ lsb := fun he => hl (he ▸ List.mem_cons_self _ _)
        have hl2 : l ∉ rest := fun hc => hl (List.mem_cons_of_mem _ hc)
        rw [hslots l hl2, pt_entry_pt_set_ne_lsb _ _ _ _ _ hl1]
      · intro l hl
        rcases List.mem_cons.mp hl with he | hm
        · subst he
          have hv : pt_entry ptC2 msb l = 0 := by
            rw [hslots l hlnr, h0, pt_entry_pt_set_zero]
          unfold copy_rel
          rw [if_pos h0, hv]
        · exact hrel l hm
    · rw [if_neg h0] at h
      rcases halloc : alloc_kpages σ with ⟨np, σa⟩
      rw [halloc] at h
      dsimp only at h
      by_cases hnp : np = 0
      · rw [if_pos hnp] at h
        simp only [Prod.mk.injEq, ENOMEM] at h
        exact absurd h.1 (by norm_num)
      · rw [if_neg hnp] at h
        simp only [memmove] at h
        rw [if_neg hnp] at h
        obtain ⟨hnpv, hnx, hamem, -, -, -, -⟩ := alloc_kpages_pos σ np σa halloc hnp
        -- the state after bzero and memmove of this iteration
        set σc : Sys := (memmove (bzero σa np PAGE_SIZE) np
          (PADDR_TO_KVADDR (l2o lsb &&& PAGE_FRAME)) PAGE_SIZE).2 with hσc
        set W : Nat := (KVADDR_TO_PADDR np &&& PAGE_FRAME) ||| (l2o lsb &&& TLBLO_DIRTY) |||
          TLBLO_VALID with hWdef
        have hcnx : σc.nextPage = σ.nextPage + 1 := by
          rw [hσc]
          simp [memmove, bzero, hnx]
        have h' : copy_pt_inner σc l2o (pt_set (pt_set ptC msb lsb (l2o lsb)) msb lsb W) msb
            rest = (0, ptC2, σ2) := h
        obtain ⟨mono, hmem, hother, hsome2, hslots, hrel⟩ :=
          ih σc (pt_set (pt_set ptC msb lsb (l2o lsb)) msb lsb W) ptC2 σ2 h' hndr
            (by rw [pt_set_isSome, pt_set_isSome]; exact hsome)
            (fun l hl hne => by
              rw [hcnx]
              have := hw l (List.mem_cons_of_mem _ hl) hne
              simp only [PAGE_SIZE] at this ⊢
              omega) hcap
        have hmono2 : σ.nextPage + 1 ≤ σ2.nextPage := hcnx ▸ mono
        have hk20 : σ.nextPage < 2 ^ 20 := by omega
        -- memory below the starting watermark after this iteration
        have hlowmem : ∀ a, a < MIPS_KSEG0 + σ.nextPage * PAGE_SIZE → σc.mem a = σ.mem a := by
          intro a ha
          rw [hσc]
          have h1 : a < np := by rw [hnpv]; exact ha
          rw [step_mem_low σa np _ PAGE_SIZE a h1, hamem]
        refine ⟨by omega, ?_, ?_, hsome2, ?_, ?_⟩
        · intro a ha
          have h1 : a < MIPS_KSEG0 + σc.nextPage * PAGE_SIZE := by
            rw [hcnx]
            simp only [PAGE_SIZE] at ha ⊢
            omega
          rw [hmem a h1, hlowmem a ha]
        · intro m hm
          rw [hother m hm, pt_set_ne _ _ _ _ _ hm, pt_set_ne _ _ _ _ _ hm]
        · intro l hl
          have hl1 : l ≠ lsb := fun he => hl (he ▸ List.mem_cons_self _ _)
          have hl2 : l ∉ rest := fun hc => hl (List.mem_cons_of_mem _ hc)
          rw [hslots l hl2, pt_entry_pt_set_ne_lsb _ _ _ _ _ hl1,
            pt_entry_pt_set_ne_lsb _ _ _ _ _ hl1]
        · intro l hl
          rcases List.mem_cons.mp hl with he | hm
          · subst he
            have hv : pt_entry ptC2 msb l = W := by
              rw [hslots l hlnr]
              exact pt_entry_pt_set_same _ _ _ _ (by rw [pt_set_isSome]; exact hsome)
            have hWeq : W = (4096 * σ.nextPage) ||| (l2o l &&& 1024) ||| 512 := by
              rw [hWdef, hnpv]
              have he1 : KVADDR_TO_PADDR (MIPS_KSEG0 + σ.nextPage * PAGE_SIZE) =
                  σ.nextPage * 4096 := by
                simp [KVADDR_TO_PADDR, MIPS_KSEG0, PAGE_SIZE]
              rw [he1]
              have he2 : σ.nextPage * 4096 &&& PAGE_FRAME = 4096 * σ.nextPage := by
                simp only [PAGE_FRAME]
                rw [land_page_frame (σ.nextPage * 4096) (by nlinarith)]
                omega
              rw [he2]
              rfl
            have hd : (l2o l &&& 1024) = 0 ∨ (l2o l &&& 1024) = 1024 := land_1024_cases _
            obtain ⟨hw1, hw2, hw3, hw4⟩ := pte_word_land σ.nextPage (l2o l &&& 1024) hk20 hd
            have hb := hw l (List.mem_cons_self _ _) h0
            unfold copy_rel
            rw [if_neg h0, hv, hWeq]
            have hTD : (TLBLO_DIRTY : Nat) = 1024 := rfl
            have hTV : (TLBLO_VALID : Nat) = 512 := rfl
            have hPF : (PAGE_FRAME : Nat) = 0xFFFFF000 := rfl
            rw [hTD, hTV, hPF]
            refine ⟨hw4, hw1, hw2, ?_, ?_, ?_, ?_⟩
            · rw [hw3]
              simp only [PAGE_FRAME] at hb
              simp only [PAGE_SIZE] at hb
              omega
            · rw [hw3]
              simp only [PAGE_SIZE]
              omega
            · simp only [PAGE_FRAME] at hb
              simp only [PAGE_SIZE] at hb ⊢
              omega
            · intro off hoff
              rw [hw3]
              simp only [PAGE_FRAME] at hb ⊢
              simp only [PAGE_SIZE] at hb hoff ⊢
              -- both frames sit below the post-iteration watermark
              have hc1 : PADDR_TO_KVADDR (4096 * σ.nextPage) + off <
                  MIPS_KSEG0 + σc.nextPage * PAGE_SIZE := by
                rw [hcnx]
                simp only [PADDR_TO_KVADDR, PAGE_SIZE]
                omega
              have hc2 : PADDR_TO_KVADDR (l2o l &&& 4294963200) + off <
                  MIPS_KSEG0 + σc.nextPage * PAGE_SIZE := by
                rw [hcnx]
                simp only [PADDR_TO_KVADDR, PAGE_SIZE]
                omega
              rw [hmem _ hc1, hmem _ hc2]
              rw [hσc]
              have hdst : PADDR_TO_KVADDR (4096 * σ.nextPage) + off = np + off := by
                rw [hnpv]
                simp only [PADDR_TO_KVADDR, MIPS_KSEG0, PAGE_SIZE]
                omega
              have hsrcb : PADDR_TO_KVADDR (l2o l &&& 4294963200) + PAGE_SIZE ≤ np := by
                rw [hnpv]
                simp only [PADDR_TO_KVADDR, MIPS_KSEG0, PAGE_SIZE]
                omega
              rw [hdst]
              have h1 := step_mem_dst σa np (PADDR_TO_KVADDR (l2o l &&& PAGE_FRAME))
                PAGE_SIZE off (by simpa [PAGE_SIZE] using hoff) (by simpa [PAGE_FRAME] using hsrcb)
              have h2 := step_mem_low σa np (PADDR_TO_KVADDR (l2o l &&& PAGE_FRAME))
                PAGE_SIZE (PADDR_TO_KVADDR (l2o l &&& 4294963200) + off)
                (by simp only [PAGE_SIZE] at hsrcb; omega)
              simp only [PAGE_FRAME] at h1 h2 ⊢
              rw [h1, h2]
          · have := hrel l hm
            exact this

/-- Helper: kmalloc leaves everything but its own bookkeeping unchanged. -/
theorem kmalloc_sys (σ : Sys) :
    (kmalloc σ).2.nextPage = σ.nextPage ∧ (kmalloc σ).2.mem = σ.mem ∧
    (kmalloc σ).2.framePlan = σ.framePlan ∧ (kmalloc σ).2.junk = σ.junk ∧
    (kmalloc σ).2.allocatedFrames = σ.allocatedFrames := by
  unfold kmalloc
  cases h : σ.kmPlan with
  | nil => exact ⟨rfl, rfl, rfl, rfl, rfl⟩
  | cons ok rest => cases ok <;> simp

/-- Helper: a successful inner copy loop only raises the watermark. -/
theorem copy_pt_inner_mono (l2o : Nat → Nat) (msb : Nat) :
    ∀ (lsbs : List Nat) (σ : Sys) (ptC ptC2 : PT) (σ2 : Sys),
      copy_pt_inner σ l2o ptC msb lsbs = (0, ptC2, σ2) → σ.nextPage ≤ σ2.nextPage := by
  intro lsbs
  induction lsbs with
  | nil =>
    intro σ ptC ptC2 σ2 h
    rw [copy_pt_inner] at h
    simp only [Prod.mk.injEq] at h
    rw [← h.2.2]
  | cons lsb rest ih =>
    intro σ ptC ptC2 σ2 h
    rw [copy_pt_inner] at h
    dsimp only at h
    by_cases h0 : l2o lsb = 0
    · rw [if_pos h0] at h
      exact ih σ _ ptC2 σ2 h
    · rw [if_neg h0] at h
      rcases halloc : alloc_kpages σ with ⟨np, σa⟩
      rw [halloc] at h
      dsimp only at h
      by_cases hnp : np = 0
      · rw [if_pos hnp] at h
        simp only [Prod.mk.injEq, ENOMEM] at h
        exact absurd h.1 (by norm_num)
      · rw [if_neg hnp] at h
        simp only [memmove] at h
        rw [if_neg hnp] at h
        obtain ⟨-, hnx, -, -, -, -, -⟩ := alloc_kpages_pos σ np σa halloc hnp
        have h2 := ih _ _ ptC2 σ2 h
        simp only [bzero] at h2
        omega

/-- Helper: a successful outer copy loop only raises the watermark. -/
theorem copy_pt_outer_mono (ptO : PT) :
    ∀ (msbs : List Nat) (σ : Sys) (ptC ptC2 : PT) (σ2 : Sys),
      copy_pt_outer σ ptO ptC msbs = (0, ptC2, σ2) → σ.nextPage ≤ σ2.nextPage := by
  intro msbs
  induction msbs with
  | nil =>
    intro σ ptC ptC2 σ2 h
    rw [copy_pt_outer] at h
    simp only [Prod.mk.injEq] at h
    rw [← h.2.2]
  | cons m rest ih =>
    intro σ ptC ptC2 σ2 h
    rw [copy_pt_outer] at h
    cases hOm : ptO m with
    | none =>
      rw [hOm] at h
      exact ih σ ptC ptC2 σ2 h
    | some l2om =>
      rw [hOm] at h
      rcases hk : kmalloc σ with ⟨o, σa⟩
      rw [hk] at h
      cases o with
      | none =>
        simp only [Prod.mk.injEq, ENOMEM] at h
        exact absurd h.1 (by norm_num)
      | some kid =>
        dsimp only at h
        rcases hin : copy_pt_inner σa l2om (pt_set_l2 ptC m (σa.junk kid)) m
            (List.range L2_PT_SIZE) with ⟨e, ptCm, σm⟩
        rw [hin] at h
        cases e with
        | zero =>
          have h1 := copy_pt_inner_mono l2om m _ σa _ ptCm σm hin
          have h2 := ih σm ptCm ptC2 σ2 h
          have h3 := (kmalloc_sys σ).1
          rw [hk] at h3
          simp only at h3
          omega
        | succ n =>
          simp only [Prod.mk.injEq] at h
          exact absurd h.1 (by omega)

/-- Helper: invariant of a successful run of the copy_pt outer loop: memory
below the starting watermark is untouched, untraversed L1 rows are untouched,
traversed empty rows stay empty, and every traversed populated row yields a
populated copy row whose first 512 slots satisfy copy_rel in the final
state. -/
theorem copy_pt_outer_success (ptO : PT) :
    ∀ (msbs : List Nat) (σ : Sys) (ptC ptC2 : PT) (σ2 : Sys),
      copy_pt_outer σ ptO ptC msbs = (0, ptC2, σ2) →
      msbs.Nodup →
      (∀ m ∈ msbs, ∀ l, l < L2_PT_SIZE → pt_entry ptO m l ≠ 0 →
        (pt_entry ptO m l &&& PAGE_FRAME) + PAGE_SIZE ≤ σ.nextPage * PAGE_SIZE) →
      σ2.nextPage ≤ 2 ^ 20 →
      σ.nextPage ≤ σ2.nextPage ∧
      (∀ a, a < MIPS_KSEG0 + σ.nextPage * PAGE_SIZE → σ2.mem a = σ.mem a) ∧
      (∀ m, m ∉ msbs → ptC2 m = ptC m) ∧
      (∀ m ∈ msbs, ptO m = none → ptC2 m = ptC m) ∧
      (∀ m ∈ msbs, ∀ l2om, ptO m = some l2om →
        (ptC2 m).isSome = true ∧
        (∀ l, l < L2_PT_SIZE → copy_rel σ2.mem σ2.nextPage (l2om l) (pt_entry ptC2 m l))) := by
  intro msbs
  induction msbs with
  | nil =>
    intro σ ptC ptC2 σ2 h hnd hw hcap
    rw [copy_pt_outer] at h
    simp only [Prod.mk.injEq] at h
    obtain ⟨-, hpt, hσ⟩ := h
    subst hpt
    subst hσ
    exact ⟨le_refl _, fun a _ => rfl, fun m _ => rfl, by simp, by simp⟩
  | cons m rest ih =>
    intro σ ptC ptC2 σ2 h hnd hw hcap
    obtain ⟨hmnr, hndr⟩ := List.nodup_cons.mp hnd
    rw [copy_pt_outer] at h
    cases hOm : ptO m with
    | none =>
      rw [hOm] at h
      obtain ⟨mono, hmem, hout, hnone, hsome⟩ :=
        ih σ ptC ptC2 σ2 h hndr (fun m' hm' => hw m' (List.mem_cons_of_mem _ hm')) hcap
      refine ⟨mono, hmem, fun m' hm' => hout m' (fun hc => hm' (List.mem_cons_of_mem _ hc)),
        ?_, ?_⟩
      · intro m' hm' hOm'
        rcases List.mem_cons.mp hm' with he | hmr
        · subst he
          exact hout m' hmnr
        · exact hnone m' hmr hOm'
      · intro m' hm' l2om hOm'
        rcases List.mem_cons.mp hm' with he | hmr
        · subst he
          rw [hOm] at hOm'
          cases hOm'
        · exact hsome m' hmr l2om hOm'
    | some l2om =>
      rw [hOm] at h
      rcases hk : kmalloc σ with ⟨o, σa⟩
      rw [hk] at h
      cases o with
      | none =>
        simp only [Prod.mk.injEq, ENOMEM] at h
        exact absurd h.1 (by norm_num)
      | some kid =>
        dsimp only at h
        rcases hin : copy_pt_inner σa l2om (pt_set_l2 ptC m (σa.junk kid)) m
            (List.range L2_PT_SIZE) with ⟨e, ptCm, σm⟩
        rw [hin] at h
        cases e with
        | succ n =>
          simp only [Prod.mk.injEq] at h
          exact absurd h.1 (by omega)
        | zero =>
          obtain ⟨hkn, hkm, -, -, -⟩ := kmalloc_sys σ
          rw [hk] at hkn hkm
          simp only at hkn hkm
          -- the inner row entries are exactly the source entries of row m
          have hrowO : ∀ l, pt_entry ptO m l = l2om l := by
            intro l
            unfold pt_entry
            rw [hOm]
          -- watermark cap for the inner run, via monotonicity of the rest run
          have hmono3 : σm.nextPage ≤ σ2.nextPage := copy_pt_outer_mono ptO rest σm ptCm ptC2 σ2 h
          obtain ⟨imono, imem, iother, isome, islots, irel⟩ :=
            copy_pt_inner_success l2om m (List.range L2_PT_SIZE) σa _ ptCm σm hin
              (List.nodup_range _)
              (by rw [pt_set_l2]; simp)
              (fun l hl hne => by
                rw [hkn]
                have := hw m (List.mem_cons_self _ _) l (List.mem_range.mp hl)
                rw [hrowO l] at this
                exact this hne)
              (by omega)
          obtain ⟨mono, hmem, hout, hnone, hsome⟩ :=
            ih σm ptCm ptC2 σ2 h hndr
              (fun m' hm' l hl hne => by
                have := hw m' (List.mem_cons_of_mem _ hm') l hl hne
                have hle : σ.nextPage ≤ σm.nextPage := by omega
                simp only [PAGE_SIZE] at this ⊢
                nlinarith)
              hcap
          have hothm : ∀ m', m' ≠ m → ptCm m' = ptC m' := by
            intro m' hm'
            rw [iother m' hm', pt_set_l2_ne _ _ _ _ hm']
          refine ⟨by omega, ?_, ?_, ?_, ?_⟩
          · intro a ha
            have h1 : a < MIPS_KSEG0 + σm.nextPage * PAGE_SIZE := by
              simp only [PAGE_SIZE] at ha ⊢
              nlinarith
            have h2 : a < MIPS_KSEG0 + σa.nextPage * PAGE_SIZE := by rw [hkn]; exact ha
            rw [hmem a h1, imem a h2, hkm]
          · intro m' hm'
            have hm1 : m' ≠ m := fun he => hm' (he ▸ List.mem_cons_self _ _)
            have hm2 : m' ∉ rest := fun hc => hm' (List.mem_cons_of_mem _ hc)
            rw [hout m' hm2, hothm m' hm1]
          · intro m' hm' hOm'
            rcases List.mem_cons.mp hm' with he | hmr
            · subst he
              rw [hOm] at hOm'
              cases hOm'
            · have hm1 : m' ≠ m := fun he => hmnr (he ▸ hmr)
              rw [hnone m' hmr hOm', hothm m' hm1]
          · intro m' hm' l2om' hOm'
            rcases List.mem_cons.mp hm' with he | hmr
            · subst he
              have hrow : ptC2 m' = ptCm m' := hout m' hmnr
              have hOinj : l2om' = l2om := by
                rw [hOm] at hOm'
                cases hOm'
                rfl
              subst hOinj
              constructor
              · rw [hrow]
                exact isome
              · intro l hl
                have he1 : pt_entry ptC2 m' l = pt_entry ptCm m' l := pt_entry_congr _ _ _ _ hrow
                rw [he1]
                have hr := irel l (List.mem_range.mpr hl)
                exact copy_rel_stable σm.mem σ2.mem σm.nextPage σ2.nextPage _ _ hr hmono3
                  (fun a ha => hmem a ha)
            · exact hsome m' hmr l2om' hOm'

/-- Helper: a successful as_create yields an empty address space with a fresh
all-empty page table, and only consumes kmalloc bookkeeping. -/
theorem as_create_spec (σ : Sys) (as' : addrspace) (σ1 : Sys)
    (h : as_create σ = (some as', σ1)) :
    as'.pagetable = some (fun _ => none) ∧ as'.regions = [] ∧
    σ1.nextPage = σ.nextPage ∧ σ1.mem = σ.mem := by
  unfold as_create at h
  rcases hk1 : kmalloc σ with ⟨o1, σa⟩
  rw [hk1] at h
  obtain ⟨ha1, ha2, -, -, -⟩ := kmalloc_sys σ
  rw [hk1] at ha1 ha2
  simp only at ha1 ha2
  cases o1 with
  | none => simp at h
  | some k1 =>
    dsimp only at h
    rcases hk2 : kmalloc σa with ⟨o2, σb⟩
    rw [hk2] at h
    obtain ⟨hb1, hb2, -, -, -⟩ := kmalloc_sys σa
    rw [hk2] at hb1 hb2
    simp only at hb1 hb2
    cases o2 with
    | none => simp at h
    | some k2 =>
      simp only [Prod.mk.injEq, Option.some.injEq] at h
      obtain ⟨has, hσ⟩ := h
      subst hσ
      rw [← has]
      exact ⟨rfl, rfl, by rw [hb1, ha1], by rw [hb2, ha2]⟩

/-- Helper: the region-copy loop of as_copy only consumes kmalloc
bookkeeping: watermark and memory are unchanged. -/
theorem as_copy_regions_sys (rs : List Region) :
    ∀ σ : Sys, (as_copy_regions σ rs).2.2.nextPage = σ.nextPage ∧
      (as_copy_regions σ rs).2.2.mem = σ.mem := by
  induction rs with
  | nil => intro σ; exact ⟨rfl, rfl⟩
  | cons r rest ih =>
    intro σ
    rw [as_copy_regions]
    rcases hk : kmalloc σ with ⟨o, σa⟩
    obtain ⟨h1, h2, -, -, -⟩ := kmalloc_sys σ
    rw [hk] at h1 h2
    simp only at h1 h2
    cases o with
    | none => simp [h1, h2]
    | some kid =>
      rcases hr : as_copy_regions σa rest with ⟨others, ok, σb⟩
      obtain ⟨h3, h4⟩ := ih σa
      rw [hr] at h3 h4
      simp only at h3 h4
      simp only
      rw [hr]
      simp only
      rw [h3, h4, h1, h2]
      exact ⟨rfl, rfl⟩

/-- C3: after a successful as_copy, a source page-table slot is resident in
the source exactly when the corresponding slot is resident in the copy; for
every resident slot the copy's entry carries the same dirty (writable) bit
and the same valid bit, names a different physical frame, and the two
frames' contents are byte-for-byte equal.  The hypotheses state the
allocator-soundness invariants of any reachable state: every resident source
frame lies below the allocation watermark, resident entries carry the valid
bit (create_pte installs it), and physical memory fits the 32-bit machine
(final watermark at most 2^20 pages). -/
theorem c3_as_copy_deep_copies_page_table (σ : Sys) (old nw : addrspace) (σ2 : Sys) (ptO : PT)
    (hpt : old.pagetable = some ptO)
    (hsucc : as_copy σ old = (0, some nw, σ2))
    (hw : ∀ m, m < L1_PT_SIZE → ∀ l, l < L2_PT_SIZE → pt_entry ptO m l ≠ 0 →
      (pt_entry ptO m l &&& PAGE_FRAME) + PAGE_SIZE ≤ σ.nextPage * PAGE_SIZE)
    (hvalid : ∀ m l, pt_entry ptO m l ≠ 0 → pt_entry ptO m l &&& TLBLO_VALID = TLBLO_VALID)
    (hcap : σ2.nextPage ≤ 2 ^ 20) :
    ∃ ptN, nw.pagetable = some ptN ∧
      ∀ m, m < L1_PT_SIZE → ∀ l, l < L2_PT_SIZE →
        ((pt_entry ptO m l ≠ 0) ↔ (pt_entry ptN m l ≠ 0)) ∧
        (pt_entry ptO m l ≠ 0 →
          pt_entry ptN m l &&& TLBLO_DIRTY = pt_entry ptO m l &&& TLBLO_DIRTY ∧
          pt_entry ptN m l &&& TLBLO_VALID = pt_entry ptO m l &&& TLBLO_VALID ∧
          pt_entry ptN m l &&& PAGE_FRAME ≠ pt_entry ptO m l &&& PAGE_FRAME ∧
          ∀ off, off < PAGE_SIZE →
            σ2.mem (PADDR_TO_KVADDR (pt_entry ptN m l &&& PAGE_FRAME) + off) =
            σ2.mem (PADDR_TO_KVADDR (pt_entry ptO m l &&& PAGE_FRAME) + off)) := by
  unfold as_copy at hsucc
  rcases hc : as_create σ with ⟨o, σ1⟩
  rw [hc] at hsucc
  cases o with
  | none => simp at hsucc
  | some newas0 =>
    obtain ⟨hnpt, hnreg, hσ1n, hσ1m⟩ := as_create_spec σ newas0 σ1 hc
    dsimp only at hsucc
    rcases hr : as_copy_regions σ1 old.regions with ⟨rs, ok, σR⟩
    rw [hr] at hsucc
    obtain ⟨hσRn, hσRm⟩ := as_copy_regions_sys old.regions σ1
    rw [hr] at hσRn hσRm
    simp only at hσRn hσRm
    cases ok with
    | false => simp at hsucc
    | true =>
      dsimp only at hsucc
      rw [hnpt] at hsucc
      dsimp only at hsucc
      unfold copy_pt at hsucc
      rw [hpt] at hsucc
      dsimp only at hsucc
      rcases houter : copy_pt_outer σR ptO (fun _ => none) (List.range L1_PT_SIZE)
        with ⟨res, ptC2, σ3⟩
      rw [houter] at hsucc
      cases res with
      | succ n => simp at hsucc
      | zero =>
        simp only [Prod.mk.injEq, Option.some.injEq] at hsucc
        obtain ⟨-, hnw, hσ2⟩ := hsucc
        subst hσ2
        obtain ⟨mono, hmem, hout, hnone, hsome⟩ :=
          copy_pt_outer_success ptO (List.range L1_PT_SIZE) σR (fun _ => none) ptC2 σ3 houter
            (List.nodup_range _)
            (fun m hm l hl hne => by
              rw [hσRn, hσ1n]
              exact hw m (List.mem_range.mp hm) l hl hne)
            hcap
        refine ⟨ptC2, by rw [← hnw], ?_⟩
        intro m hm l hl
        cases hOm : ptO m with
        | none =>
          have he0 : pt_entry ptO m l = 0 := by unfold pt_entry; rw [hOm]
          have hc0 : ptC2 m = none := hnone m (List.mem_range.mpr hm) hOm
          have he1 : pt_entry ptC2 m l = 0 := by unfold pt_entry; rw [hc0]
          rw [he0, he1]
          exact ⟨Iff.rfl, fun h => absurd rfl h⟩
        | some l2om =>
          have heo : pt_entry ptO m l = l2om l := by unfold pt_entry; rw [hOm]
          obtain ⟨-, hrel⟩ := hsome m (List.mem_range.mpr hm) l2om hOm
          have hr := hrel l hl
          unfold copy_rel at hr
          rw [heo]
          by_cases h0 : l2om l = 0
          · rw [if_pos h0] at hr
            rw [h0, hr]
            exact ⟨Iff.rfl, fun h => absurd rfl h⟩
          · rw [if_neg h0] at hr
            obtain ⟨h1, h2, h3, h4, -, -, h7⟩ := hr
            refine ⟨⟨fun _ => h1, fun _ => h0⟩, fun _ => ⟨h2, ?_, h4, h7⟩⟩
            have hv := hvalid m l (by rw [heo]; exact h0)
            rw [heo] at hv
            rw [h3, hv]

set_option maxRecDepth 100000 in
/-- Witness for C3 at a concrete input: copying the empty address space as0
succeeds and the copied page table satisfies the per-slot relation
everywhere. -/
theorem c3_as_copy_deep_copies_page_table_witness :
    ∃ ptN, as0.pagetable = some ptN ∧
      ∀ m, m < L1_PT_SIZE → ∀ l, l < L2_PT_SIZE →
        ((pt_entry (fun _ => none) m l ≠ 0) ↔ (pt_entry ptN m l ≠ 0)) ∧
        (pt_entry (fun _ => none) m l ≠ 0 →
          pt_entry ptN m l &&& TLBLO_DIRTY = pt_entry (fun _ => none) m l &&& TLBLO_DIRTY ∧
          pt_entry ptN m l &&& TLBLO_VALID = pt_entry (fun _ => none) m l &&& TLBLO_VALID ∧
          pt_entry ptN m l &&& PAGE_FRAME ≠ pt_entry (fun _ => none) m l &&& PAGE_FRAME ∧
          ∀ off, off < PAGE_SIZE →
            sysE.mem (PADDR_TO_KVADDR (pt_entry ptN m l &&& PAGE_FRAME) + off) =
            sysE.mem (PADDR_TO_KVADDR (pt_entry (fun _ => none) m l &&& PAGE_FRAME) + off)) :=
  c3_as_copy_deep_copies_page_table sysT as0 as0 sysE (fun _ => none) rfl rfl
    (fun m hm l hl hne => absurd rfl hne)
    (fun m l hne => absurd rfl hne)
    (by decide)
